import Mathlib

/-!
# Verification of the VoodooGPIO pin-control core

A shallow embedding of the VoodooGPIO Intel pin-control/GPIO driver core
(`VoodooGPIO.hpp`).  The repository ships only the class and data-structure
declarations; the bodies of the declared member functions are not part of
the source tree, so each operation below is modelled from the specification
document, faithful to its wording, and the claims are settled against these
models.

Machine registers are 32-bit quantities; they are modelled as `Nat` with
bit access through `Nat.testBit` (no arithmetic below ever needs overflow
wrapping, since registers are only stored, compared and tested bitwise).
-/

set_option autoImplicit false

namespace VoodooGPIO

/-- Hardware pad group information, mirroring `struct intel_padgroup`:
`reg_num` is the GPI_IS register number, `base` the starting pin of the
group (relative to its community, so that the groups of a community
partition `[0, npins)`), `size` the number of pads (at most 32),
`gpio_base` the starting GPIO base, `padown_num` the PAD_OWN register
number assigned by the core driver. -/
structure intel_padgroup where
  reg_num : Nat
  base : Nat
  size : Nat
  gpio_base : Int
  padown_num : Nat
  deriving Repr, DecidableEq

/-- Intel pin community description, mirroring `struct intel_community`.
Register-offset fields follow the header's convention: a `0` offset means
the corresponding register block is absent (`padown_offset`: no owner
support; `padcfglock_offset`: locking not supported; `hostown_offset`:
the host is assumed to own the pins).  `gpps` holds the pad groups —
explicit ones from the platform data or the synthesized ones — and
`isActive` is the community's active-flag. -/
structure intel_community where
  barno : Nat
  padown_offset : Nat
  padcfglock_offset : Nat
  hostown_offset : Nat
  ie_offset : Nat
  pin_base : Nat
  gpp_size : Nat
  npins : Nat
  gpps : List intel_padgroup
  isActive : Bool
  deriving Repr, DecidableEq

/-- `community_contains c pin` — the community's declared range
`[pin_base, pin_base + npins)` contains the (absolute) pin number. -/
def community_contains (c : intel_community) (pin : Nat) : Bool :=
  c.pin_base ≤ pin && pin < c.pin_base + c.npins

/-- `padgroup_contains g rel` — the pad group's range `[base, base + size)`
contains the community-relative pin number `rel`. -/
def padgroup_contains (g : intel_padgroup) (rel : Nat) : Bool :=
  g.base ≤ rel && rel < g.base + g.size

/-- Modelled from the spec: missing body of
`VoodooGPIO::intel_get_community` — find the community whose declared pin
range contains `pin`. -/
def intel_get_community (comms : List intel_community) (pin : Nat) :
    Option intel_community :=
  comms.find? (fun c => community_contains c pin)

/-- Modelled from the spec: missing body of
`VoodooGPIO::intel_community_get_padgroup` — find the pad group of
`c` whose range contains `pin` (taken relative to the community). -/
def intel_community_get_padgroup (c : intel_community) (pin : Nat) :
    Option intel_padgroup :=
  c.gpps.find? (fun g => padgroup_contains g (pin - c.pin_base))

/-- Failure of address resolution. -/
inductive LocateError where
  | OutOfRange
  deriving Repr, DecidableEq

/-- Modelled from the spec: the Address Resolver's
`locate(pin) -> (community, pad_group)`, failing with `OutOfRange` when no
community's range contains the pin.  (The header only declares the two
lookup helpers it is built from.) -/
def locate (comms : List intel_community) (pin : Nat) :
    Except LocateError (intel_community × intel_padgroup) :=
  match intel_get_community comms pin with
  | none => .error .OutOfRange
  | some c =>
    match intel_community_get_padgroup c pin with
    | none => .error .OutOfRange
    | some g => .ok (c, g)

/-- `gppsCover gpps start npins` — the pad groups are consecutive,
non-empty, begin at `start` and end exactly at `npins`.  Applied with
`start = 0` this is the data-model invariant that a community's pad groups
partition `[0, npins)`. -/
def gppsCover : List intel_padgroup → Nat → Nat → Bool
  | [], start, npins => start == npins
  | g :: rest, start, npins =>
    g.base == start && g.size != 0 && gppsCover rest (start + g.size) npins

/-- Two communities have disjoint declared pin ranges. -/
def commDisjoint (a b : intel_community) : Prop :=
  a.pin_base + a.npins ≤ b.pin_base ∨ b.pin_base + b.npins ≤ a.pin_base

instance decCommDisjoint : DecidableRel commDisjoint :=
  fun a b => inferInstanceAs (Decidable (_ ∨ _))

/-- The `i`-th pad group synthesized for a community of `npins` pins with
maximum group size `gpp_size`: it starts at pin `i * gpp_size`, has at
most `gpp_size` pads (fewer for the truncated last group), its register
number is the group ordinal and its GPIO base the group's starting pin. -/
def synthGroup (npins gpp_size i : Nat) : intel_padgroup :=
  { reg_num := i
    base := i * gpp_size
    size := min gpp_size (npins - i * gpp_size)
    gpio_base := (i * gpp_size : Nat)
    padown_num := i }

/-- Modelled from the spec: missing body of
`VoodooGPIO::intel_pinctrl_add_padgroups` — when a community supplies no
explicit pad groups, synthesize them by dividing `[0, npins)` into
`⌈npins / gpp_size⌉` consecutive groups of `gpp_size` pins (the last
group truncated), each of the shape given by `synthGroup`.  (The PAD_OWN
register assignment is also the group ordinal; the spec does not
constrain it further and no claim depends on it.) -/
def intel_pinctrl_add_padgroups (npins gpp_size : Nat) : List intel_padgroup :=
  (List.range ((npins + gpp_size - 1) / gpp_size)).map (synthGroup npins gpp_size)

/-! ## Ownership & Lock Oracle -/

/-- Status/result values returned by the driver's operations. -/
inductive KernReturn where
  | success
  | alreadyRegistered
  | notRegistered
  | locked
  | unsupported
  deriving Repr, DecidableEq

/-- Per-pin pad-configuration lock state: `unlocked` (no lock bit set, or
locking unsupported by the community), `softLocked` (only the TX-state
lock bit set), `hardLocked` (the full PADCFGLOCK bit set). -/
inductive LockState where
  | unlocked
  | softLocked
  | hardLocked
  deriving Repr, DecidableEq

/-- Register state seen by the lock oracle and by `set_interrupt_type`:
one community, its PADCFGLOCK / PADCFGLOCKTX registers (indexed by pad
group register number), and the PADCFG0 register of every pin (indexed by
absolute pin number). -/
structure PadConfigHW where
  community : intel_community
  lockRegs : Nat → Nat
  lockTxRegs : Nat → Nat
  padcfg0 : Nat → Nat

/-- Modelled from the spec: missing body of
`VoodooGPIO::intel_pad_locked` — `unlocked` when the community declares no
PADCFGLOCK register (`padcfglock_offset = 0`, locking not supported);
otherwise derived from the pin's bit in the group's PADCFGLOCK (full lock)
and PADCFGLOCKTX (partial lock) registers. -/
def intel_pad_locked (hw : PadConfigHW) (pin : Nat) : LockState :=
  let c := hw.community
  if c.padcfglock_offset = 0 then .unlocked
  else
    match intel_community_get_padgroup c pin with
    | some g =>
      let off := pin - c.pin_base - g.base
      if (hw.lockRegs g.reg_num).testBit off then .hardLocked
      else if (hw.lockTxRegs g.reg_num).testBit off then .softLocked
      else .unlocked
    | none => .unlocked

/-- Modelled from the spec: missing body of
`VoodooGPIO::intel_pad_is_unlocked` — true only for the `unlocked` state. -/
def intel_pad_is_unlocked (hw : PadConfigHW) (pin : Nat) : Bool :=
  match intel_pad_locked hw pin with
  | .unlocked => true
  | _ => false

/-- Modelled from the spec: missing body of
`VoodooGPIO::intel_pad_owned_by_host` — true if the community declares no
host-owner register (`hostown_offset = 0`, host always owns) or if the
pin's bit in the group's HOSTSW_OWN register (read through `hostownRead`,
indexed by the group's register number) is set. -/
def intel_pad_owned_by_host (c : intel_community) (hostownRead : Nat → Nat)
    (pin : Nat) : Bool :=
  if c.hostown_offset = 0 then true
  else
    match intel_community_get_padgroup c pin with
    | some g => (hostownRead g.reg_num).testBit (pin - c.pin_base - g.base)
    | none => false

/-! ## Interrupt type programming -/

/-- The interrupt trigger types expressible by the hardware. -/
inductive IrqType where
  | edgeRising
  | edgeFalling
  | edgeBoth
  | levelHigh
  | levelLow
  deriving Repr, DecidableEq

/-- Hardware encoding of a trigger type in the PADCFG0 type bits. -/
def typeCode : IrqType → Nat
  | .edgeRising => 1
  | .edgeFalling => 2
  | .edgeBoth => 3
  | .levelHigh => 4
  | .levelLow => 5

/-- Rewrite the interrupt-type bit field (bits 23–27) of a PADCFG0 value,
leaving the other bits untouched. -/
def rewriteTypeBits (v : Nat) (t : IrqType) : Nat :=
  v % 2 ^ 23 + typeCode t * 2 ^ 23 + v / 2 ^ 28 * 2 ^ 28

/-- Modelled from the spec: missing body of
`VoodooGPIO::intel_gpio_irq_set_type` — fails with `locked` when the pin
is config-locked (leaving every register untouched); otherwise rewrites
the pin's type bits in its PADCFG0 register. -/
def intel_gpio_irq_set_type (hw : PadConfigHW) (pin : Nat) (t : IrqType) :
    KernReturn × PadConfigHW :=
  if intel_pad_is_unlocked hw pin then
    (.success, { hw with
      padcfg0 := fun p =>
        if p = pin then rewriteTypeBits (hw.padcfg0 pin) t else hw.padcfg0 p })
  else (.locked, hw)

/-! ## Interrupt registration bookkeeping -/

/-- The Interrupt Router's per-driver bookkeeping: the callback bindings
(pin, owner, handler, refcon — the last three opaque and modelled as
numbers), the Registered-Pin List, and the set of pins whose interrupt
line is currently unmasked.  A pin is masked exactly when it is not in
`unmasked`. -/
structure RouterState where
  bindings : List (Nat × Nat × Nat × Nat)
  registered_pin_list : List Nat
  unmasked : List Nat
  deriving Repr, DecidableEq

/-- The (owner, handler, refcon) triple currently bound to `pin`. -/
def pinBinding (st : RouterState) (pin : Nat) : Option (Nat × Nat × Nat) :=
  (st.bindings.find? (fun b => b.1 == pin)).map (fun b => b.2)

/-- Modelled from the spec: missing body of
`VoodooGPIO::registerInterrupt` — fails with `alreadyRegistered` if a
handler is already bound to the pin (leaving the state untouched);
otherwise records the (owner, handler, refcon) triple, adds the pin to the
Registered-Pin List, and leaves the pin masked until explicitly
enabled. -/
def registerInterrupt (st : RouterState) (pin owner handler refcon : Nat) :
    KernReturn × RouterState :=
  match pinBinding st pin with
  | some _ => (.alreadyRegistered, st)
  | none =>
    (.success, { st with
      bindings := (pin, owner, handler, refcon) :: st.bindings
      registered_pin_list := st.registered_pin_list ++ [pin] })

/-- Modelled from the spec: missing body of
`VoodooGPIO::unregisterInterrupt` — fails with `notRegistered` if no
handler is bound; otherwise clears the triple, masks the interrupt line,
and removes the pin from the Registered-Pin List. -/
def unregisterInterrupt (st : RouterState) (pin : Nat) :
    KernReturn × RouterState :=
  match pinBinding st pin with
  | none => (.notRegistered, st)
  | some _ =>
    (.success, { st with
      bindings := st.bindings.filter (fun b => b.1 != pin)
      registered_pin_list := st.registered_pin_list.filter (fun p => p != pin)
      unmasked := st.unmasked.filter (fun p => p != pin) })

/-! ## Interrupt dispatch -/

/-- One pin-level event produced by a pass of the top-level interrupt
handler: either a synchronous invocation of the registered handler, or a
status bit with no registered owner, recorded as spurious. -/
inductive DispatchEvent where
  | dispatched (pin : Nat)
  | spurious (pin : Nat)
  deriving Repr, DecidableEq

/-- The bit positions below `n` that are set in `v`. -/
def bitsBelow (v n : Nat) : List Nat :=
  (List.range n).filter (fun b => v.testBit b)

/-- Modelled from the spec: missing body of
`VoodooGPIO::intel_gpio_community_irq_handler` — read the community's
interrupt-status registers pad group by pad group (`status` lists the
GPI_IS value of each group, in group order); for every set status bit
compute the absolute pin and dispatch to its registered owner, or record
the event as spurious when no owner is registered (`owned` lists the pins
with a registered owner). -/
def intel_gpio_community_irq_handler (owned : List Nat)
    (c : intel_community) (status : List Nat) : List DispatchEvent :=
  (c.gpps.zip status).flatMap fun gs =>
    (bitsBelow gs.2 gs.1.size).map fun b =>
      let pin := c.pin_base + gs.1.base + b
      if owned.contains pin then .dispatched pin else .spurious pin

/-- Modelled from the spec: missing body of
`VoodooGPIO::interruptOccurredGated` — one pass of the top-level interrupt
handler over all communities (paired with their status-register values),
skipping every community whose active-flag is false. -/
def interruptOccurredGated (owned : List Nat)
    (comms : List (intel_community × List Nat)) : List DispatchEvent :=
  comms.flatMap fun p =>
    if p.1.isActive then intel_gpio_community_irq_handler owned p.1 p.2 else []

/-- Number of set status bits a community reports, counted pad group by
pad group (only bits inside a group's size count). -/
def communityStatusCount (c : intel_community) (status : List Nat) : Nat :=
  ((c.gpps.zip status).map fun gs => (bitsBelow gs.2 gs.1.size).length).sum

/-! ## Power-Context Manager -/

/-- Saved per-pin registers, mirroring `struct intel_pad_context`. -/
structure intel_pad_context where
  padcfg0 : Nat
  padcfg1 : Nat
  padcfg2 : Nat
  deriving Repr, DecidableEq

/-- Saved per-community registers, mirroring
`struct intel_community_context` (one GPI_IE and one HOSTSW_OWN value per
pad-group register number). -/
structure intel_community_context where
  intmask : Nat → Nat
  hostown : Nat → Nat

/-- The power-management snapshot, mirroring
`struct intel_pinctrl_context`: an entry per preserved pin and per saved
community (`none` where nothing was saved). -/
structure intel_pinctrl_context where
  pads : Nat → Option intel_pad_context
  communities : Nat → Option intel_community_context

/-- Driver state as seen by the Power-Context Manager: the topology, the
total number of pins, the Registered-Pin List, the pins otherwise flagged
as needing save (configured as GPIO), and the hardware registers — three
PADCFG registers per absolute pin, and per community (by index) the GPI_IE
and HOSTSW_OWN registers by pad-group register number. -/
structure PMState where
  comms : List intel_community
  npins : Nat
  registered_pin_list : List Nat
  flagged_pins : List Nat
  padcfg0 : Nat → Nat
  padcfg1 : Nat → Nat
  padcfg2 : Nat → Nat
  intmask : Nat → Nat → Nat
  hostown : Nat → Nat → Nat

/-- Modelled from the spec: missing body of
`VoodooGPIO::intel_pinctrl_should_save` — true only for pins in the
Registered-Pin List or otherwise flagged as needing save. -/
def intel_pinctrl_should_save (d : PMState) (pin : Nat) : Bool :=
  d.registered_pin_list.contains pin || d.flagged_pins.contains pin

/-- Modelled from the spec: missing body of
`VoodooGPIO::intel_pinctrl_suspend` — for every pin where
`intel_pinctrl_should_save` holds, read and store its three config
registers into the context; for every active community, store its
interrupt-mask and host-owner registers. -/
def intel_pinctrl_suspend (d : PMState) : intel_pinctrl_context :=
  { pads := fun pin =>
      if pin < d.npins && intel_pinctrl_should_save d pin then
        some ⟨d.padcfg0 pin, d.padcfg1 pin, d.padcfg2 pin⟩
      else none
    communities := fun i =>
      match d.comms[i]? with
      | some c =>
        if c.isActive then some ⟨fun r => d.intmask i r, fun r => d.hostown i r⟩
        else none
      | none => none }

/-- Whether address resolution succeeds for `pin` — a saved pin that fails
to resolve no longer validates a live owning community. -/
def locateOk (comms : List intel_community) (pin : Nat) : Bool :=
  match locate comms pin with
  | .ok _ => true
  | .error _ => false

/-- One step of the resume pass, in execution order: restoring a
community's saved registers, restoring a pin's saved config registers, or
skipping (logging only) a saved pin that no longer validates a live owning
community. -/
inductive ResumeEvent where
  | commRestore (i : Nat)
  | padRestore (pin : Nat)
  | padSkip (pin : Nat)
  deriving Repr, DecidableEq

/-- A community index at which resume writes back saved registers: the
community exists, is active, and the context holds an entry for it. -/
def commRestored (d : PMState) (ctx : intel_pinctrl_context) (i : Nat) : Bool :=
  match d.comms[i]?, ctx.communities i with
  | some c, some _ => c.isActive
  | _, _ => false

/-- Modelled from the spec: missing body of
`VoodooGPIO::intel_pinctrl_resume` — symmetric restore: community
registers first (interrupt-mask and host-owner of every active community
with a saved entry), then the per-pin config registers of every saved pin;
a saved pin that no longer validates a live owning community is skipped
(logged only), and the pass continues over all remaining pins.  Returns
the new state together with the ordered list of resume events. -/
def intel_pinctrl_resume (d : PMState) (ctx : intel_pinctrl_context) :
    PMState × List ResumeEvent :=
  let restorePad : (Nat → Nat) → (intel_pad_context → Nat) → Nat → Nat :=
    fun old sel pin =>
      if pin < d.npins then
        match ctx.pads pin with
        | some pc => if locateOk d.comms pin then sel pc else old pin
        | none => old pin
      else old pin
  let d' : PMState := { d with
    intmask := fun i r =>
      match ctx.communities i with
      | some cc => if commRestored d ctx i then cc.intmask r else d.intmask i r
      | none => d.intmask i r
    hostown := fun i r =>
      match ctx.communities i with
      | some cc => if commRestored d ctx i then cc.hostown r else d.hostown i r
      | none => d.hostown i r
    padcfg0 := restorePad d.padcfg0 (fun pc => pc.padcfg0)
    padcfg1 := restorePad d.padcfg1 (fun pc => pc.padcfg1)
    padcfg2 := restorePad d.padcfg2 (fun pc => pc.padcfg2) }
  let commEvents := (List.range d.comms.length).filterMap fun i =>
    if commRestored d ctx i then some (ResumeEvent.commRestore i) else none
  let padEvents := (List.range d.npins).filterMap fun pin =>
    match ctx.pads pin with
    | some _ =>
      some (if locateOk d.comms pin then ResumeEvent.padRestore pin
            else ResumeEvent.padSkip pin)
    | none => none
  (d', commEvents ++ padEvents)

/-- The absolute pin number answering to bit `b` of community `i`'s
GPI_IE register number `r`, when the topology defines one. -/
def maskBitPin? (comms : List intel_community) (i r b : Nat) : Option Nat :=
  match comms[i]? with
  | some c =>
    match c.gpps.find? (fun g => g.reg_num == r) with
    | some g => if b < g.size then some (c.pin_base + g.base + b) else none
    | none => none
  | none => none

/-- Bit `b` of the saved GPI_IE value for community `i`, register `r`, in
a power-management context (`false` when nothing was saved). -/
def ctxArmed (ctx : intel_pinctrl_context) (i r b : Nat) : Bool :=
  match ctx.communities i with
  | some cc => (cc.intmask r).testBit b
  | none => false

/-! ## Concrete fixtures used by the witnesses -/

/-- A small community: pins `[0, 4)`, one pad group, all optional register
blocks present. -/
def demoCommA : intel_community :=
  { barno := 0, padown_offset := 4, padcfglock_offset := 8,
    hostown_offset := 12, ie_offset := 16, pin_base := 0, gpp_size := 32,
    npins := 4, gpps := [⟨0, 0, 4, 0, 0⟩], isActive := true }

/-- A second community: pins `[4, 8)`, one pad group. -/
def demoCommB : intel_community :=
  { barno := 0, padown_offset := 4, padcfglock_offset := 8,
    hostown_offset := 12, ie_offset := 16, pin_base := 4, gpp_size := 32,
    npins := 4, gpps := [⟨0, 0, 4, 0, 0⟩], isActive := true }

/-- `demoCommA` with lock support absent (`padcfglock_offset = 0`). -/
def demoCommNoLock : intel_community :=
  { demoCommA with padcfglock_offset := 0 }

/-- Pad-config hardware whose PADCFGLOCK register has bit 0 set, so pin 0
of `demoCommA` is hard-locked. -/
def demoLockedHW : PadConfigHW :=
  { community := demoCommA, lockRegs := fun _ => 1, lockTxRegs := fun _ => 0,
    padcfg0 := fun p => 100 + p }

/-- Pad-config hardware for a community without lock support. -/
def demoNoLockHW : PadConfigHW :=
  { community := demoCommNoLock, lockRegs := fun _ => 0,
    lockTxRegs := fun _ => 0, padcfg0 := fun p => 100 + p }

/-- `demoCommB` with its active-flag cleared. -/
def demoCommBInactive : intel_community :=
  { demoCommB with isActive := false }

/-- A power-management driver state over `demoCommA`: pin 1 registered,
pin 2 flagged as needing save. -/
def demoPM : PMState :=
  { comms := [demoCommA], npins := 4, registered_pin_list := [1],
    flagged_pins := [2], padcfg0 := fun p => 10 + p,
    padcfg1 := fun p => 20 + p, padcfg2 := fun p => 30 + p,
    intmask := fun _ _ => 2, hostown := fun _ _ => 15 }

/-- A drifted power-management state: the pins table has 6 entries but
the only community covers `[0, 4)`, so registered pin 5 no longer
validates a live owning community. -/
def demoPMDrift : PMState :=
  { comms := [demoCommA], npins := 6, registered_pin_list := [1, 5],
    flagged_pins := [], padcfg0 := fun p => 10 + p,
    padcfg1 := fun p => 20 + p, padcfg2 := fun p => 30 + p,
    intmask := fun _ _ => 2, hostown := fun _ _ => 15 }

/-!
## Theorems
-/

theorem community_contains_iff (c : intel_community) (pin : Nat) :
    community_contains c pin = true ↔
      c.pin_base ≤ pin ∧ pin < c.pin_base + c.npins := by
  simp [community_contains]

theorem padgroup_contains_iff (g : intel_padgroup) (rel : Nat) :
    padgroup_contains g rel = true ↔ g.base ≤ rel ∧ rel < g.base + g.size := by
  simp [padgroup_contains]

/-! ### Pad-group synthesis (C7) -/

theorem le_ngpps_mul (npins s : Nat) (hs : 0 < s) :
    npins ≤ (npins + s - 1) / s * s := by
  have h1 : s * ((npins + s - 1) / s) + (npins + s - 1) % s = npins + s - 1 :=
    Nat.div_add_mod _ _
  have h2 : (npins + s - 1) % s < s := Nat.mod_lt _ hs
  have h3 : npins ≤ s * ((npins + s - 1) / s) := by omega
  calc npins ≤ s * ((npins + s - 1) / s) := h3
    _ = (npins + s - 1) / s * s := Nat.mul_comm _ _

theorem mul_lt_of_lt_ngpps (npins s j : Nat) (hs : 0 < s)
    (hj : j < (npins + s - 1) / s) : j * s < npins := by
  have h1 : s * ((npins + s - 1) / s) + (npins + s - 1) % s = npins + s - 1 :=
    Nat.div_add_mod _ _
  have h2 : (npins + s - 1) % s < s := Nat.mod_lt _ hs
  have h3 : (j + 1) * s ≤ (npins + s - 1) / s * s :=
    Nat.mul_le_mul_right s hj
  have h4 : (j + 1) * s = j * s + s := Nat.succ_mul j s
  have h5 : (npins + s - 1) / s * s = s * ((npins + s - 1) / s) :=
    Nat.mul_comm _ _
  omega

theorem synth_cover_aux (npins s : Nat) (hs : 0 < s) :
    ∀ cnt j, j + cnt = (npins + s - 1) / s →
      gppsCover ((List.range' j cnt).map (synthGroup npins s))
        (min (j * s) npins) npins = true := by
  intro cnt
  induction cnt with
  | zero =>
    intro j hj
    have hj' : j = (npins + s - 1) / s := by omega
    have hle : npins ≤ j * s := by
      rw [hj']
      exact le_ngpps_mul npins s hs
    simp [gppsCover, Nat.min_eq_right hle]
  | succ cnt ih =>
    intro j hj
    have hjq : j < (npins + s - 1) / s := by omega
    have hjn : j * s < npins := mul_lt_of_lt_ngpps npins s j hs hjq
    have hsucc : (j + 1) * s = j * s + s := Nat.succ_mul j s
    rw [List.range'_succ, List.map_cons]
    have hmin : min (j * s) npins = j * s := Nat.min_eq_left (Nat.le_of_lt hjn)
    rw [hmin]
    show (((synthGroup npins s j).base == j * s &&
        (synthGroup npins s j).size != 0) &&
        gppsCover ((List.range' (j + 1) cnt).map (synthGroup npins s))
          (j * s + (synthGroup npins s j).size) npins) = true
    have hstep : j * s + (synthGroup npins s j).size = min ((j + 1) * s) npins := by
      simp only [synthGroup]
      omega
    rw [hstep]
    have hsize : (synthGroup npins s j).size ≠ 0 := by
      simp only [synthGroup]
      omega
    simp [synthGroup, hsize, ih (j + 1) (by omega)]
    omega

theorem add_padgroups_cover (npins s : Nat) (hs : 0 < s) :
    gppsCover (intel_pinctrl_add_padgroups npins s) 0 npins = true := by
  have h := synth_cover_aux npins s hs ((npins + s - 1) / s) 0 (by omega)
  simpa [intel_pinctrl_add_padgroups, List.range_eq_range'] using h

/-- **C7**: for a community supplying no explicit pad groups with
`npins = 70` and default group size `32`, synthesis produces exactly the
three groups `[0,32)`, `[32,64)`, `[64,70)` (the last truncated); in
general, synthesis divides `[0, npins)` into consecutive groups
(`gppsCover`) of the default size, with every group but the last of size
exactly `gpp_size`. -/
theorem padgroup_synthesis_spec (npins s : Nat) (hs : 0 < s) :
    intel_pinctrl_add_padgroups 70 32 =
      [⟨0, 0, 32, (0 : Int), 0⟩, ⟨1, 32, 32, (32 : Int), 1⟩,
       ⟨2, 64, 6, (64 : Int), 2⟩] ∧
    gppsCover (intel_pinctrl_add_padgroups npins s) 0 npins = true ∧
    (∀ i, i + 1 < (npins + s - 1) / s →
      ∃ g, (intel_pinctrl_add_padgroups npins s)[i]? = some g ∧
        g.base = i * s ∧ g.size = s) := by
  refine ⟨by decide, add_padgroups_cover npins s hs, ?_⟩
  intro i hi
  refine ⟨synthGroup npins s i, ?_, rfl, ?_⟩
  · simp [intel_pinctrl_add_padgroups, List.getElem?_range (by omega : i < (npins + s - 1) / s)]
  · have h1 : (i + 1) * s < npins := mul_lt_of_lt_ngpps npins s (i + 1) hs hi
    have h2 : (i + 1) * s = i * s + s := Nat.succ_mul i s
    simp only [synthGroup]
    omega

/-! ### Address resolution (C1) -/

theorem gppsCover_le :
    ∀ (gpps : List intel_padgroup) (start npins : Nat),
      gppsCover gpps start npins = true → start ≤ npins := by
  intro gpps
  induction gpps with
  | nil =>
    intro start npins h
    simp [gppsCover] at h
    omega
  | cons a rest ih =>
    intro start npins h
    simp only [gppsCover, Bool.and_eq_true] at h
    obtain ⟨⟨hbase, hsize⟩, hrest⟩ := h
    have := ih (start + a.size) npins hrest
    omega

theorem gppsCover_bounds :
    ∀ (gpps : List intel_padgroup) (start npins : Nat),
      gppsCover gpps start npins = true →
      ∀ g ∈ gpps, start ≤ g.base ∧ g.base + g.size ≤ npins := by
  intro gpps
  induction gpps with
  | nil =>
    intro start npins _ g hg
    cases hg
  | cons a rest ih =>
    intro start npins h g hg
    simp only [gppsCover, Bool.and_eq_true, beq_iff_eq] at h
    obtain ⟨⟨hbase, _⟩, hrest⟩ := h
    have hle := gppsCover_le rest (start + a.size) npins hrest
    rcases List.mem_cons.mp hg with rfl | hmem
    · omega
    · have := ih (start + a.size) npins hrest g hmem
      omega

theorem gppsCover_find (gpps : List intel_padgroup) (npins rel : Nat) :
    ∀ start, gppsCover gpps start npins = true → start ≤ rel → rel < npins →
    ∃ g, gpps.find? (fun g => padgroup_contains g rel) = some g ∧
      padgroup_contains g rel = true ∧
      ∀ g' ∈ gpps, padgroup_contains g' rel = true → g' = g := by
  induction gpps with
  | nil =>
    intro start hcov h1 h2
    simp [gppsCover] at hcov
    omega
  | cons a rest ih =>
    intro start hcov h1 h2
    simp only [gppsCover, Bool.and_eq_true, beq_iff_eq] at hcov
    obtain ⟨⟨hbase, hsize⟩, hrest⟩ := hcov
    by_cases hlt : rel < start + a.size
    · have hca : padgroup_contains a rel = true := by
        rw [padgroup_contains_iff]
        omega
      refine ⟨a, List.find?_cons_of_pos _ hca, hca, ?_⟩
      intro g' hg' hcg'
      rcases List.mem_cons.mp hg' with rfl | hmem
      · rfl
      · exfalso
        have hb := gppsCover_bounds rest (start + a.size) npins hrest g' hmem
        rw [padgroup_contains_iff] at hcg'
        omega
    · have hca : ¬padgroup_contains a rel = true := by
        rw [padgroup_contains_iff]
        omega
      obtain ⟨g0, hfind, hc0, huniq⟩ := ih (start + a.size) hrest (by omega) h2
      refine ⟨g0, ?_, hc0, ?_⟩
      · exact (List.find?_cons_of_neg rest hca).trans hfind
      · intro g' hg' hcg'
        rcases List.mem_cons.mp hg' with rfl | hmem
        · exact absurd hcg' hca
        · exact huniq g' hmem hcg'

theorem comm_find (pin : Nat) :
    ∀ comms : List intel_community, comms.Pairwise commDisjoint →
    (∃ c0 ∈ comms, community_contains c0 pin = true) →
    ∃ c, comms.find? (fun c => community_contains c pin) = some c ∧
      community_contains c pin = true ∧
      ∀ c' ∈ comms, community_contains c' pin = true → c' = c := by
  intro comms
  induction comms with
  | nil =>
    rintro _ ⟨c0, h, _⟩
    cases h
  | cons a rest ih =>
    rintro hdisj ⟨c0, hc0mem, hc0⟩
    obtain ⟨hd, hrest⟩ := List.pairwise_cons.mp hdisj
    by_cases hca : community_contains a pin = true
    · refine ⟨a, List.find?_cons_of_pos _ hca, hca, ?_⟩
      intro c' hc' hcc'
      rcases List.mem_cons.mp hc' with rfl | hmem
      · rfl
      · exfalso
        have hdisj' := hd c' hmem
        rw [community_contains_iff] at hca hcc'
        rcases hdisj' with h | h <;> omega
    · have hexrest : ∃ c0 ∈ rest, community_contains c0 pin = true := by
        rcases List.mem_cons.mp hc0mem with rfl | hmem
        · exact absurd hc0 hca
        · exact ⟨c0, hmem, hc0⟩
      obtain ⟨c, hfind, hc, huniq⟩ := ih hrest hexrest
      refine ⟨c, ?_, hc, ?_⟩
      · exact (List.find?_cons_of_neg rest hca).trans hfind
      · intro c' hc' hcc'
        rcases List.mem_cons.mp hc' with rfl | hmem
        · exact absurd hcc' hca
        · exact huniq c' hmem hcc'

/-- **C1**: under the data-model invariants (disjoint community pin
ranges, pad groups partitioning `[0, npins)`), `locate` returns, for
every pin inside some community's declared range, exactly one
(community, pad-group) pair, the returned pad-group's range containing
the pin; and for every pin outside every community's declared range it
fails with `OutOfRange`. -/
theorem locate_spec (comms : List intel_community) (pin : Nat)
    (hdisj : comms.Pairwise commDisjoint)
    (hcov : ∀ c ∈ comms, gppsCover c.gpps 0 c.npins = true) :
    ((∃ c ∈ comms, community_contains c pin = true) →
      ∃ c g, locate comms pin = .ok (c, g) ∧
        community_contains c pin = true ∧
        padgroup_contains g (pin - c.pin_base) = true ∧
        (∀ c' ∈ comms, community_contains c' pin = true → c' = c) ∧
        (∀ g' ∈ c.gpps, padgroup_contains g' (pin - c.pin_base) = true → g' = g)) ∧
    ((∀ c ∈ comms, community_contains c pin = false) →
      locate comms pin = .error .OutOfRange) := by
  constructor
  · rintro ⟨c0, hc0m, hc0⟩
    obtain ⟨c, hfind, hc, hcuniq⟩ := comm_find pin comms hdisj ⟨c0, hc0m, hc0⟩
    have hcm : c ∈ comms := List.mem_of_find?_eq_some hfind
    have hcovc := hcov c hcm
    have hrel : pin - c.pin_base < c.npins := by
      rw [community_contains_iff] at hc
      omega
    obtain ⟨g, hgfind, hgc, hguniq⟩ :=
      gppsCover_find c.gpps c.npins (pin - c.pin_base) 0 hcovc (Nat.zero_le _) hrel
    refine ⟨c, g, ?_, hc, hgc, hcuniq, hguniq⟩
    simp [locate, intel_get_community, intel_community_get_padgroup, hfind, hgfind]
  · intro hall
    have hnone : comms.find? (fun c => community_contains c pin) = none := by
      rw [List.find?_eq_none]
      intro c hcm
      simp [hall c hcm]
    simp [locate, intel_get_community, hnone]

/-- Witness for C1: two disjoint demo communities; pin 5 resolves inside
the second, pin 11 is out of range. -/
theorem locate_spec_witness :
    [demoCommA, demoCommB].Pairwise commDisjoint ∧
    (∀ c ∈ [demoCommA, demoCommB], gppsCover c.gpps 0 c.npins = true) ∧
    (((∃ c ∈ [demoCommA, demoCommB], community_contains c 5 = true) →
      ∃ c g, locate [demoCommA, demoCommB] 5 = .ok (c, g) ∧
        community_contains c 5 = true ∧
        padgroup_contains g (5 - c.pin_base) = true ∧
        (∀ c' ∈ [demoCommA, demoCommB], community_contains c' 5 = true → c' = c) ∧
        (∀ g' ∈ c.gpps, padgroup_contains g' (5 - c.pin_base) = true → g' = g)) ∧
    ((∀ c ∈ [demoCommA, demoCommB], community_contains c 5 = false) →
      locate [demoCommA, demoCommB] 5 = .error .OutOfRange)) :=
  ⟨by decide, by decide, locate_spec [demoCommA, demoCommB] 5 (by decide) (by decide)⟩

/-- Witness for C7 at the concrete input of the claim
(`npins = 70`, `gpp_size = 32`). -/
theorem padgroup_synthesis_spec_witness :
    0 < 32 ∧
    (intel_pinctrl_add_padgroups 70 32 =
      [⟨0, 0, 32, (0 : Int), 0⟩, ⟨1, 32, 32, (32 : Int), 1⟩,
       ⟨2, 64, 6, (64 : Int), 2⟩] ∧
    gppsCover (intel_pinctrl_add_padgroups 70 32) 0 70 = true ∧
    (∀ i, i + 1 < (70 + 32 - 1) / 32 →
      ∃ g, (intel_pinctrl_add_padgroups 70 32)[i]? = some g ∧
        g.base = i * 32 ∧ g.size = 32)) :=
  ⟨by decide, padgroup_synthesis_spec 70 32 (by decide)⟩

/-! ### Ownership & Lock Oracle (C8, C10, C4) -/

/-- **C8**: under the pad-group partition invariant, `owned_by_host(pin)`
is true exactly when the community declares no host-owner register
(`hostown_offset = 0`) or the bit corresponding to the pin in its pad
group's host-owner register is set (`g` being the pin's pad group). -/
theorem owned_by_host_spec (c : intel_community) (ho : Nat → Nat) (pin : Nat)
    (g : intel_padgroup)
    (hcov : gppsCover c.gpps 0 c.npins = true)
    (hg : g ∈ c.gpps)
    (hgc : padgroup_contains g (pin - c.pin_base) = true) :
    intel_pad_owned_by_host c ho pin = true ↔
      (c.hostown_offset = 0 ∨
        (ho g.reg_num).testBit (pin - c.pin_base - g.base) = true) := by
  have hfind : intel_community_get_padgroup c pin = some g := by
    have hb := gppsCover_bounds c.gpps 0 c.npins hcov g hg
    have hrel : pin - c.pin_base < c.npins := by
      rw [padgroup_contains_iff] at hgc
      omega
    obtain ⟨g0, hf, _, huniq⟩ :=
      gppsCover_find c.gpps c.npins (pin - c.pin_base) 0 hcov (Nat.zero_le _) hrel
    have hgg0 : g = g0 := huniq g hg hgc
    rw [intel_community_get_padgroup, hgg0]
    exact hf
  by_cases h0 : c.hostown_offset = 0
  · simp [intel_pad_owned_by_host, h0]
  · simp [intel_pad_owned_by_host, h0, hfind]

/-- Witness for C8: pin 1 of `demoCommA` (which declares a host-owner
register) with HOSTSW_OWN value `2` (bit 1 set). -/
theorem owned_by_host_spec_witness :
    gppsCover demoCommA.gpps 0 demoCommA.npins = true ∧
    (⟨0, 0, 4, 0, 0⟩ : intel_padgroup) ∈ demoCommA.gpps ∧
    padgroup_contains ⟨0, 0, 4, 0, 0⟩ (1 - demoCommA.pin_base) = true ∧
    (intel_pad_owned_by_host demoCommA (fun _ => 2) 1 = true ↔
      (demoCommA.hostown_offset = 0 ∨
        ((fun (_ : Nat) => 2) (0 : Nat)).testBit
          (1 - demoCommA.pin_base - (0 : Nat)) = true)) :=
  ⟨by decide, by decide, by decide,
    owned_by_host_spec demoCommA (fun _ => 2) 1 ⟨0, 0, 4, 0, 0⟩
      (by decide) (by decide) (by decide)⟩

/-- **C10**: for a pin of a community whose pad-config-lock register
offset is `0` (locking not supported), `intel_pad_locked` reports the pin
unlocked, and `set_interrupt_type` never rejects it with the `locked`
error. -/
theorem lock_unsupported_unlocked (hw : PadConfigHW) (pin : Nat) (t : IrqType)
    (h : hw.community.padcfglock_offset = 0) :
    intel_pad_locked hw pin = .unlocked ∧
    (intel_gpio_irq_set_type hw pin t).1 ≠ .locked := by
  have hl : intel_pad_locked hw pin = .unlocked := by
    simp [intel_pad_locked, h]
  refine ⟨hl, ?_⟩
  have hu : intel_pad_is_unlocked hw pin = true := by
    simp [intel_pad_is_unlocked, hl]
  simp [intel_gpio_irq_set_type, hu]

/-- Witness for C10: pin 2 of the no-lock-support community. -/
theorem lock_unsupported_unlocked_witness :
    demoNoLockHW.community.padcfglock_offset = 0 ∧
    (intel_pad_locked demoNoLockHW 2 = .unlocked ∧
      (intel_gpio_irq_set_type demoNoLockHW 2 .edgeRising).1 ≠ .locked) :=
  ⟨by decide, lock_unsupported_unlocked demoNoLockHW 2 .edgeRising (by decide)⟩

/-- **C4**: a pin whose pad configuration is locked according to the lock
oracle makes `set_interrupt_type` fail with `locked` and leaves the pin's
pad-config register value unchanged. -/
theorem set_type_locked_rejected (hw : PadConfigHW) (pin : Nat) (t : IrqType)
    (h : intel_pad_locked hw pin ≠ .unlocked) :
    (intel_gpio_irq_set_type hw pin t).1 = .locked ∧
    (intel_gpio_irq_set_type hw pin t).2.padcfg0 pin = hw.padcfg0 pin := by
  have hu : intel_pad_is_unlocked hw pin = false := by
    cases hl : intel_pad_locked hw pin
    case unlocked => exact absurd hl h
    all_goals simp [intel_pad_is_unlocked, hl]
  simp [intel_gpio_irq_set_type, hu]

/-- Witness for C4: pin 0 of `demoLockedHW` is hard-locked. -/
theorem set_type_locked_rejected_witness :
    intel_pad_locked demoLockedHW 0 ≠ .unlocked ∧
    ((intel_gpio_irq_set_type demoLockedHW 0 .levelHigh).1 = .locked ∧
      (intel_gpio_irq_set_type demoLockedHW 0 .levelHigh).2.padcfg0 0 =
        demoLockedHW.padcfg0 0) :=
  ⟨by decide, set_type_locked_rejected demoLockedHW 0 .levelHigh (by decide)⟩

/-! ### Interrupt registration (C5, C6) -/

theorem registerInterrupt_of_unbound (st : RouterState) (pin o h rc : Nat)
    (hnone : pinBinding st pin = none) :
    registerInterrupt st pin o h rc =
      (.success, { st with
        bindings := (pin, o, h, rc) :: st.bindings
        registered_pin_list := st.registered_pin_list ++ [pin] }) := by
  unfold registerInterrupt
  rw [hnone]

theorem pinBinding_cons_self (st : RouterState) (pin o h rc : Nat) :
    pinBinding { st with
      bindings := (pin, o, h, rc) :: st.bindings
      registered_pin_list := st.registered_pin_list ++ [pin] } pin =
      some (o, h, rc) := by
  unfold pinBinding
  rw [List.find?_cons_of_pos _ (by simp)]
  rfl

theorem registerInterrupt_of_bound (st : RouterState) (pin o h rc : Nat)
    (trip : Nat × Nat × Nat) (hsome : pinBinding st pin = some trip) :
    registerInterrupt st pin o h rc = (.alreadyRegistered, st) := by
  unfold registerInterrupt
  rw [hsome]

theorem unregisterInterrupt_of_bound (st : RouterState) (pin : Nat)
    (trip : Nat × Nat × Nat) (hsome : pinBinding st pin = some trip) :
    unregisterInterrupt st pin =
      (.success, { st with
        bindings := st.bindings.filter (fun b => b.1 != pin)
        registered_pin_list := st.registered_pin_list.filter (fun p => p != pin)
        unmasked := st.unmasked.filter (fun p => p != pin) }) := by
  unfold unregisterInterrupt
  rw [hsome]

/-- **C5**: on a pin with no bound handler, `register_interrupt` succeeds,
and a second `register_interrupt` without an intervening unregister fails
with `alreadyRegistered`, leaving the driver state — in particular the
(owner, handler, refcon) triple recorded by the first call — unchanged. -/
theorem register_twice_fails (st : RouterState) (pin o h rc o' h' rc' : Nat)
    (hnone : pinBinding st pin = none) :
    (registerInterrupt st pin o h rc).1 = .success ∧
    registerInterrupt (registerInterrupt st pin o h rc).2 pin o' h' rc' =
      (.alreadyRegistered, (registerInterrupt st pin o h rc).2) ∧
    pinBinding
      (registerInterrupt (registerInterrupt st pin o h rc).2 pin o' h' rc').2
      pin = some (o, h, rc) := by
  have h1 := registerInterrupt_of_unbound st pin o h rc hnone
  have h2 : pinBinding (registerInterrupt st pin o h rc).2 pin = some (o, h, rc) := by
    rw [h1]
    exact pinBinding_cons_self st pin o h rc
  have h3 : registerInterrupt (registerInterrupt st pin o h rc).2 pin o' h' rc' =
      (.alreadyRegistered, (registerInterrupt st pin o h rc).2) :=
    registerInterrupt_of_bound _ pin o' h' rc' _ h2
  refine ⟨by rw [h1], h3, ?_⟩
  rw [h3]
  exact h2

/-- Witness for C5 on the empty router state. -/
theorem register_twice_fails_witness :
    pinBinding ⟨[], [], []⟩ 3 = none ∧
    ((registerInterrupt ⟨[], [], []⟩ 3 1 2 5).1 = .success ∧
    registerInterrupt (registerInterrupt ⟨[], [], []⟩ 3 1 2 5).2 3 7 8 9 =
      (.alreadyRegistered, (registerInterrupt ⟨[], [], []⟩ 3 1 2 5).2) ∧
    pinBinding
      (registerInterrupt (registerInterrupt ⟨[], [], []⟩ 3 1 2 5).2 3 7 8 9).2
      3 = some (1, 2, 5)) :=
  ⟨by decide, register_twice_fails ⟨[], [], []⟩ 3 1 2 5 7 8 9 (by decide)⟩

/-- **C6**: on a pin with no bound handler (hence masked and absent from
the Registered-Pin List), `register_interrupt` immediately followed by
`unregister_interrupt` restores the whole pre-registration state: the
pin's masked state is as before registration, the pin is absent from the
Registered-Pin List, and no triple is bound. -/
theorem register_unregister_roundtrip (st : RouterState) (pin o h rc : Nat)
    (hnone : pinBinding st pin = none)
    (hmask : st.unmasked.contains pin = false)
    (hlist : st.registered_pin_list.contains pin = false) :
    (unregisterInterrupt (registerInterrupt st pin o h rc).2 pin).2 = st ∧
    (unregisterInterrupt (registerInterrupt st pin o h rc).2 pin).2.unmasked.contains
      pin = st.unmasked.contains pin ∧
    (unregisterInterrupt
      (registerInterrupt st pin o h rc).2 pin).2.registered_pin_list.contains
      pin = false ∧
    pinBinding (unregisterInterrupt (registerInterrupt st pin o h rc).2 pin).2
      pin = none := by
  have h1 := registerInterrupt_of_unbound st pin o h rc hnone
  have h2 : pinBinding (registerInterrupt st pin o h rc).2 pin = some (o, h, rc) := by
    rw [h1]
    exact pinBinding_cons_self st pin o h rc
  have hfind : st.bindings.find? (fun b => b.1 == pin) = none :=
    Option.map_eq_none'.mp hnone
  have hboth : ∀ b ∈ st.bindings, (b.1 != pin) = true := by
    intro b hb
    have := List.find?_eq_none.mp hfind b hb
    simpa using this
  have hlmem : pin ∉ st.registered_pin_list := by simpa using hlist
  have hmmem : pin ∉ st.unmasked := by simpa using hmask
  have hregall : ∀ p ∈ st.registered_pin_list, (p != pin) = true := by
    intro p hp
    have : p ≠ pin := fun e => hlmem (e ▸ hp)
    simpa using this
  have hmaskall : ∀ p ∈ st.unmasked, (p != pin) = true := by
    intro p hp
    have : p ≠ pin := fun e => hmmem (e ▸ hp)
    simpa using this
  have hstep : unregisterInterrupt (registerInterrupt st pin o h rc).2 pin =
      (.success, st) := by
    rw [unregisterInterrupt_of_bound _ pin _ h2, h1]
    simp [List.filter_cons, List.filter_append,
      List.filter_eq_self.mpr hboth, List.filter_eq_self.mpr hregall,
      List.filter_eq_self.mpr hmaskall]
  rw [hstep]
  exact ⟨rfl, rfl, hlist, hnone⟩

/-- Witness for C6: a state with pin 9 bound, registered and unmasked;
register then unregister pin 4. -/
theorem register_unregister_roundtrip_witness :
    pinBinding ⟨[(9, 1, 1, 1)], [9], [9]⟩ 4 = none ∧
    (⟨[(9, 1, 1, 1)], [9], [9]⟩ : RouterState).unmasked.contains 4 = false ∧
    (⟨[(9, 1, 1, 1)], [9], [9]⟩ : RouterState).registered_pin_list.contains 4 = false ∧
    ((unregisterInterrupt
        (registerInterrupt ⟨[(9, 1, 1, 1)], [9], [9]⟩ 4 1 2 3).2 4).2 =
      (⟨[(9, 1, 1, 1)], [9], [9]⟩ : RouterState) ∧
    (unregisterInterrupt
        (registerInterrupt ⟨[(9, 1, 1, 1)], [9], [9]⟩ 4 1 2 3).2 4).2.unmasked.contains
      4 = (⟨[(9, 1, 1, 1)], [9], [9]⟩ : RouterState).unmasked.contains 4 ∧
    (unregisterInterrupt
        (registerInterrupt ⟨[(9, 1, 1, 1)], [9], [9]⟩ 4 1 2
          3).2 4).2.registered_pin_list.contains 4 = false ∧
    pinBinding
      (unregisterInterrupt
        (registerInterrupt ⟨[(9, 1, 1, 1)], [9], [9]⟩ 4 1 2 3).2 4).2 4 = none) :=
  ⟨by decide, by decide, by decide,
    register_unregister_roundtrip ⟨[(9, 1, 1, 1)], [9], [9]⟩ 4 1 2 3
      (by decide) (by decide) (by decide)⟩

/-! ### Interrupt dispatch (C2) -/

theorem interruptOccurredGated_cons (owned : List Nat)
    (p : intel_community × List Nat) (rest : List (intel_community × List Nat)) :
    interruptOccurredGated owned (p :: rest) =
      (if p.1.isActive then intel_gpio_community_irq_handler owned p.1 p.2
       else []) ++ interruptOccurredGated owned rest := by
  unfold interruptOccurredGated
  rw [List.flatMap_cons]

theorem community_irq_handler_length (owned : List Nat)
    (c : intel_community) (status : List Nat) :
    (intel_gpio_community_irq_handler owned c status).length =
      communityStatusCount c status := by
  unfold intel_gpio_community_irq_handler communityStatusCount
  rw [List.length_flatMap]
  congr 1
  simp [Function.comp_def]

theorem handler_dispatched_owned (owned : List Nat) (c : intel_community)
    (status : List Nat) (pin : Nat)
    (hmem : DispatchEvent.dispatched pin ∈
      intel_gpio_community_irq_handler owned c status) :
    owned.contains pin = true := by
  unfold intel_gpio_community_irq_handler at hmem
  rw [List.mem_flatMap] at hmem
  obtain ⟨gs, _, hmem2⟩ := hmem
  rw [List.mem_map] at hmem2
  obtain ⟨b, _, heq⟩ := hmem2
  by_cases hm : c.pin_base + gs.1.base + b ∈ owned
  · simp [hm] at heq
    subst heq
    simpa using hm
  · simp [hm] at heq

theorem handler_spurious_unowned (owned : List Nat) (c : intel_community)
    (status : List Nat) (pin : Nat)
    (hmem : DispatchEvent.spurious pin ∈
      intel_gpio_community_irq_handler owned c status) :
    owned.contains pin = false := by
  unfold intel_gpio_community_irq_handler at hmem
  rw [List.mem_flatMap] at hmem
  obtain ⟨gs, _, hmem2⟩ := hmem
  rw [List.mem_map] at hmem2
  obtain ⟨b, _, heq⟩ := hmem2
  by_cases hm : c.pin_base + gs.1.base + b ∈ owned
  · simp [hm] at heq
  · simp [hm] at heq
    subst heq
    simpa using hm

theorem gated_dispatched_owned (owned : List Nat) (pin : Nat) :
    ∀ comms, DispatchEvent.dispatched pin ∈ interruptOccurredGated owned comms →
      owned.contains pin = true := by
  intro comms
  induction comms with
  | nil => intro hmem; cases hmem
  | cons p rest ih =>
    intro hmem
    rw [interruptOccurredGated_cons, List.mem_append] at hmem
    rcases hmem with hmem | hmem
    · by_cases ha : p.1.isActive = true
      · rw [if_pos ha] at hmem
        exact handler_dispatched_owned owned p.1 p.2 pin hmem
      · rw [if_neg ha] at hmem
        cases hmem
    · exact ih hmem

theorem gated_spurious_unowned (owned : List Nat) (pin : Nat) :
    ∀ comms, DispatchEvent.spurious pin ∈ interruptOccurredGated owned comms →
      owned.contains pin = false := by
  intro comms
  induction comms with
  | nil => intro hmem; cases hmem
  | cons p rest ih =>
    intro hmem
    rw [interruptOccurredGated_cons, List.mem_append] at hmem
    rcases hmem with hmem | hmem
    · by_cases ha : p.1.isActive = true
      · rw [if_pos ha] at hmem
        exact handler_spurious_unowned owned p.1 p.2 pin hmem
      · rw [if_neg ha] at hmem
        cases hmem
    · exact ih hmem

theorem gated_skips_inactive (owned : List Nat) :
    ∀ comms, interruptOccurredGated owned comms =
      interruptOccurredGated owned (comms.filter (fun p => p.1.isActive)) := by
  intro comms
  induction comms with
  | nil => rfl
  | cons p rest ih =>
    by_cases ha : p.1.isActive = true
    · simp [interruptOccurredGated_cons, List.filter_cons, ha, ih]
    · rw [Bool.not_eq_true] at ha
      simp [interruptOccurredGated_cons, List.filter_cons, ha, ih]

theorem gated_length (owned : List Nat) (k : Nat) :
    ∀ comms : List (intel_community × List Nat),
      (∀ p ∈ comms, p.1.isActive = true → communityStatusCount p.1 p.2 = k) →
      (interruptOccurredGated owned comms).length =
        k * comms.countP (fun p => p.1.isActive) := by
  intro comms
  induction comms with
  | nil => intro _; simp [interruptOccurredGated]
  | cons p rest ih =>
    intro hk
    have hk' : ∀ q ∈ rest, q.1.isActive = true → communityStatusCount q.1 q.2 = k :=
      fun q hq => hk q (List.mem_cons_of_mem _ hq)
    rw [interruptOccurredGated_cons, List.length_append, List.countP_cons, ih hk']
    by_cases ha : p.1.isActive = true
    · rw [if_pos ha, community_irq_handler_length,
        hk p (List.mem_cons_self _ _) ha, ha]
      simp [Nat.mul_succ]
      omega
    · rw [if_neg ha, Bool.not_eq_true] at *
      rw [ha]
      simp

/-- **C2**: one pass of the top-level interrupt handler over `N`
communities, each active one reporting `k` set status bits, produces
exactly `k` pin-level events per active community — `N×k` in total, every
event dispatched when the pin has a registered owner and recorded as
spurious otherwise — and inactive communities are skipped, contributing
zero events (the pass equals the pass over the active communities
alone). -/
theorem interrupt_dispatch_complete (owned : List Nat)
    (comms : List (intel_community × List Nat)) (k : Nat)
    (hk : ∀ p ∈ comms, p.1.isActive = true → communityStatusCount p.1 p.2 = k) :
    (interruptOccurredGated owned comms).length =
      k * comms.countP (fun p => p.1.isActive) ∧
    (∀ pin, DispatchEvent.dispatched pin ∈ interruptOccurredGated owned comms →
      owned.contains pin = true) ∧
    (∀ pin, DispatchEvent.spurious pin ∈ interruptOccurredGated owned comms →
      owned.contains pin = false) ∧
    interruptOccurredGated owned comms =
      interruptOccurredGated owned (comms.filter (fun p => p.1.isActive)) :=
  ⟨gated_length owned k comms hk,
   fun pin => gated_dispatched_owned owned pin comms,
   fun pin => gated_spurious_unowned owned pin comms,
   gated_skips_inactive owned comms⟩

/-- Witness for C2: two communities, the active one reporting status bits
`{0, 2}` (both owned), the inactive one skipped. -/
theorem interrupt_dispatch_complete_witness :
    (∀ p ∈ [(demoCommA, [5]), (demoCommBInactive, [3])],
      p.1.isActive = true → communityStatusCount p.1 p.2 = 2) ∧
    ((interruptOccurredGated [0, 2]
        [(demoCommA, [5]), (demoCommBInactive, [3])]).length =
      2 * ([(demoCommA, [5]), (demoCommBInactive, [3])].countP
        (fun p => p.1.isActive)) ∧
    (∀ pin, DispatchEvent.dispatched pin ∈
        interruptOccurredGated [0, 2] [(demoCommA, [5]), (demoCommBInactive, [3])] →
      ([0, 2] : List Nat).contains pin = true) ∧
    (∀ pin, DispatchEvent.spurious pin ∈
        interruptOccurredGated [0, 2] [(demoCommA, [5]), (demoCommBInactive, [3])] →
      ([0, 2] : List Nat).contains pin = false) ∧
    interruptOccurredGated [0, 2] [(demoCommA, [5]), (demoCommBInactive, [3])] =
      interruptOccurredGated [0, 2]
        ([(demoCommA, [5]), (demoCommBInactive, [3])].filter
          (fun p => p.1.isActive))) :=
  ⟨by decide,
    interrupt_dispatch_complete [0, 2] [(demoCommA, [5]), (demoCommBInactive, [3])] 2
      (by decide)⟩

/-! ### Power management (C3, C9) -/

theorem resume_intmask_eq (d : PMState) (ctx : intel_pinctrl_context)
    (i r : Nat) :
    (intel_pinctrl_resume d ctx).1.intmask i r =
      match ctx.communities i with
      | some cc => if commRestored d ctx i then cc.intmask r else d.intmask i r
      | none => d.intmask i r := rfl

theorem resume_hostown_eq (d : PMState) (ctx : intel_pinctrl_context)
    (i r : Nat) :
    (intel_pinctrl_resume d ctx).1.hostown i r =
      match ctx.communities i with
      | some cc => if commRestored d ctx i then cc.hostown r else d.hostown i r
      | none => d.hostown i r := rfl

theorem resume_padcfg0_eq (d : PMState) (ctx : intel_pinctrl_context)
    (pin : Nat) :
    (intel_pinctrl_resume d ctx).1.padcfg0 pin =
      (if pin < d.npins then
        match ctx.pads pin with
        | some pc =>
          if locateOk d.comms pin then pc.padcfg0 else d.padcfg0 pin
        | none => d.padcfg0 pin
      else d.padcfg0 pin) := rfl

theorem resume_padcfg1_eq (d : PMState) (ctx : intel_pinctrl_context)
    (pin : Nat) :
    (intel_pinctrl_resume d ctx).1.padcfg1 pin =
      (if pin < d.npins then
        match ctx.pads pin with
        | some pc =>
          if locateOk d.comms pin then pc.padcfg1 else d.padcfg1 pin
        | none => d.padcfg1 pin
      else d.padcfg1 pin) := rfl

theorem resume_padcfg2_eq (d : PMState) (ctx : intel_pinctrl_context)
    (pin : Nat) :
    (intel_pinctrl_resume d ctx).1.padcfg2 pin =
      (if pin < d.npins then
        match ctx.pads pin with
        | some pc =>
          if locateOk d.comms pin then pc.padcfg2 else d.padcfg2 pin
        | none => d.padcfg2 pin
      else d.padcfg2 pin) := rfl

theorem resume_trace_eq (d : PMState) (ctx : intel_pinctrl_context) :
    (intel_pinctrl_resume d ctx).2 =
      ((List.range d.comms.length).filterMap fun i =>
        if commRestored d ctx i then some (ResumeEvent.commRestore i)
        else none) ++
      ((List.range d.npins).filterMap fun pin =>
        match ctx.pads pin with
        | some _ =>
          some (if locateOk d.comms pin then ResumeEvent.padRestore pin
                else ResumeEvent.padSkip pin)
        | none => none) := rfl

theorem suspend_pads_eq (d : PMState) (pin : Nat) :
    (intel_pinctrl_suspend d).pads pin =
      (if pin < d.npins && intel_pinctrl_should_save d pin then
        some ⟨d.padcfg0 pin, d.padcfg1 pin, d.padcfg2 pin⟩
      else none) := rfl

theorem suspend_communities_eq (d : PMState) (i : Nat) :
    (intel_pinctrl_suspend d).communities i =
      (match d.comms[i]? with
      | some c =>
        if c.isActive then
          some ⟨fun r => d.intmask i r, fun r => d.hostown i r⟩
        else none
      | none => none) := rfl

/-- **C3**: `suspend()` immediately followed by `resume()` with no
intervening hardware change restores the three config registers of every
preserved pin, and the interrupt-mask and host-owner registers of every
active community, to exactly their pre-suspend values. -/
theorem suspend_resume_roundtrip (d : PMState) :
    (∀ pin, pin < d.npins → intel_pinctrl_should_save d pin = true →
      (intel_pinctrl_resume d (intel_pinctrl_suspend d)).1.padcfg0 pin =
        d.padcfg0 pin ∧
      (intel_pinctrl_resume d (intel_pinctrl_suspend d)).1.padcfg1 pin =
        d.padcfg1 pin ∧
      (intel_pinctrl_resume d (intel_pinctrl_suspend d)).1.padcfg2 pin =
        d.padcfg2 pin) ∧
    (∀ i c, d.comms[i]? = some c → c.isActive = true → ∀ r,
      (intel_pinctrl_resume d (intel_pinctrl_suspend d)).1.intmask i r =
        d.intmask i r ∧
      (intel_pinctrl_resume d (intel_pinctrl_suspend d)).1.hostown i r =
        d.hostown i r) := by
  constructor
  · intro pin hpin hsave
    refine ⟨?_, ?_, ?_⟩
    · rw [resume_padcfg0_eq, suspend_pads_eq]
      simp [hpin, hsave]
    · rw [resume_padcfg1_eq, suspend_pads_eq]
      simp [hpin, hsave]
    · rw [resume_padcfg2_eq, suspend_pads_eq]
      simp [hpin, hsave]
  · intro i c hc hact r
    have hcc : (intel_pinctrl_suspend d).communities i =
        some ⟨fun r => d.intmask i r, fun r => d.hostown i r⟩ := by
      rw [suspend_communities_eq, hc]
      simp [hact]
    constructor
    · rw [resume_intmask_eq, hcc]
      by_cases hcr : commRestored d (intel_pinctrl_suspend d) i = true <;>
        simp [hcr]
    · rw [resume_hostown_eq, hcc]
      by_cases hcr : commRestored d (intel_pinctrl_suspend d) i = true <;>
        simp [hcr]

/-- Witness for C3 on `demoPM`: preserved pin 1 and the active community
at index 0 keep their registers across suspend/resume. -/
theorem suspend_resume_roundtrip_witness :
    (1 < demoPM.npins ∧ intel_pinctrl_should_save demoPM 1 = true ∧
      ((intel_pinctrl_resume demoPM (intel_pinctrl_suspend demoPM)).1.padcfg0 1 =
        demoPM.padcfg0 1 ∧
      (intel_pinctrl_resume demoPM (intel_pinctrl_suspend demoPM)).1.padcfg1 1 =
        demoPM.padcfg1 1 ∧
      (intel_pinctrl_resume demoPM (intel_pinctrl_suspend demoPM)).1.padcfg2 1 =
        demoPM.padcfg2 1)) ∧
    (demoPM.comms[0]? = some demoCommA ∧ demoCommA.isActive = true ∧
      ((intel_pinctrl_resume demoPM (intel_pinctrl_suspend demoPM)).1.intmask 0 0 =
        demoPM.intmask 0 0 ∧
      (intel_pinctrl_resume demoPM (intel_pinctrl_suspend demoPM)).1.hostown 0 0 =
        demoPM.hostown 0 0)) :=
  ⟨⟨by decide, by decide,
    (suspend_resume_roundtrip demoPM).1 1 (by decide) (by decide)⟩,
   ⟨by decide, by decide,
    (suspend_resume_roundtrip demoPM).2 0 demoCommA (by decide) (by decide) 0⟩⟩

theorem commRestored_spec (d : PMState) (ctx : intel_pinctrl_context) (i : Nat)
    (h : commRestored d ctx i = true) :
    ∃ c cc, d.comms[i]? = some c ∧ ctx.communities i = some cc ∧
      c.isActive = true := by
  unfold commRestored at h
  cases hc : d.comms[i]? with
  | none => rw [hc] at h; cases h
  | some c =>
    cases hcc : ctx.communities i with
    | none => rw [hc, hcc] at h; cases h
    | some cc =>
      rw [hc, hcc] at h
      exact ⟨c, cc, rfl, rfl, h⟩

/-- **C9**: `resume()` (modelled for an arbitrary saved context)
(1) performs every community-register restore before any per-pin event,
and restores all of them; (2) writes each restored community's saved
interrupt-mask register back verbatim, so — given that the saved masks
only arm pins registered at suspend time — every re-armed bit belongs to
a registered pin; (3) skips, with a log event only and no register
write, every saved pin that no longer validates a live owning community,
while still restoring every other saved pin (the pass never aborts). -/
theorem resume_order_skip_spec (d : PMState) (ctx : intel_pinctrl_context) :
    (∃ t1 t2 : List ResumeEvent,
      (intel_pinctrl_resume d ctx).2 = t1 ++ t2 ∧
      (∀ e ∈ t1, ∃ i, e = ResumeEvent.commRestore i ∧
        commRestored d ctx i = true) ∧
      (∀ i, i < d.comms.length → commRestored d ctx i = true →
        ResumeEvent.commRestore i ∈ t1) ∧
      (∀ e ∈ t2, (∃ pin, e = ResumeEvent.padRestore pin) ∨
        (∃ pin, e = ResumeEvent.padSkip pin))) ∧
    (∀ i r cc, ctx.communities i = some cc → commRestored d ctx i = true →
      (intel_pinctrl_resume d ctx).1.intmask i r = cc.intmask r ∧
      (intel_pinctrl_resume d ctx).1.hostown i r = cc.hostown r) ∧
    ((∀ i r b pin, maskBitPin? d.comms i r b = some pin →
        ctxArmed ctx i r b = true →
        d.registered_pin_list.contains pin = true) →
      ∀ i r b pin, maskBitPin? d.comms i r b = some pin →
        commRestored d ctx i = true →
        ((intel_pinctrl_resume d ctx).1.intmask i r).testBit b = true →
        d.registered_pin_list.contains pin = true) ∧
    (∀ pin, pin < d.npins → (ctx.pads pin).isSome = true →
      locateOk d.comms pin = false →
      ResumeEvent.padSkip pin ∈ (intel_pinctrl_resume d ctx).2 ∧
      (intel_pinctrl_resume d ctx).1.padcfg0 pin = d.padcfg0 pin ∧
      (intel_pinctrl_resume d ctx).1.padcfg1 pin = d.padcfg1 pin ∧
      (intel_pinctrl_resume d ctx).1.padcfg2 pin = d.padcfg2 pin) ∧
    (∀ pin, pin < d.npins → (ctx.pads pin).isSome = true →
      locateOk d.comms pin = true →
      ResumeEvent.padRestore pin ∈ (intel_pinctrl_resume d ctx).2) := by
  refine ⟨?_, ?_, ?_, ?_, ?_⟩
  · refine ⟨_, _, resume_trace_eq d ctx, ?_, ?_, ?_⟩
    · intro e he
      rw [List.mem_filterMap] at he
      obtain ⟨i, _, hi⟩ := he
      by_cases hcr : commRestored d ctx i = true
      · rw [if_pos hcr] at hi
        cases hi
        exact ⟨i, rfl, hcr⟩
      · rw [if_neg hcr] at hi
        cases hi
    · intro i hlen hcr
      rw [List.mem_filterMap]
      exact ⟨i, List.mem_range.mpr hlen, by rw [if_pos hcr]⟩
    · intro e he
      rw [List.mem_filterMap] at he
      obtain ⟨pin, _, hpin⟩ := he
      cases hp : ctx.pads pin with
      | none => rw [hp] at hpin; cases hpin
      | some pc =>
        rw [hp] at hpin
        cases hpin
        by_cases hok : locateOk d.comms pin = true
        · rw [if_pos hok]
          exact Or.inl ⟨pin, rfl⟩
        · rw [if_neg hok]
          exact Or.inr ⟨pin, rfl⟩
  · intro i r cc hcc hcr
    constructor
    · rw [resume_intmask_eq, hcc]
      simp [hcr]
    · rw [resume_hostown_eq, hcc]
      simp [hcr]
  · intro hinv i r b pin hmb hcr htest
    obtain ⟨c, cc, _, hcc, _⟩ := commRestored_spec d ctx i hcr
    rw [resume_intmask_eq, hcc] at htest
    simp only [hcr, if_true] at htest
    have harmed : ctxArmed ctx i r b = true := by
      unfold ctxArmed
      rw [hcc]
      exact htest
    exact hinv i r b pin hmb harmed
  · intro pin hpin hsome hok
    obtain ⟨pc, hpc⟩ := Option.isSome_iff_exists.mp hsome
    refine ⟨?_, ?_, ?_, ?_⟩
    · rw [resume_trace_eq]
      refine List.mem_append_right _ ?_
      rw [List.mem_filterMap]
      refine ⟨pin, List.mem_range.mpr hpin, ?_⟩
      rw [hpc, hok]
      rfl
    · rw [resume_padcfg0_eq, if_pos hpin, hpc, hok]
      rfl
    · rw [resume_padcfg1_eq, if_pos hpin, hpc, hok]
      rfl
    · rw [resume_padcfg2_eq, if_pos hpin, hpc, hok]
      rfl
  · intro pin hpin hsome hok
    obtain ⟨pc, hpc⟩ := Option.isSome_iff_exists.mp hsome
    rw [resume_trace_eq]
    refine List.mem_append_right _ ?_
    rw [List.mem_filterMap]
    refine ⟨pin, List.mem_range.mpr hpin, ?_⟩
    rw [hpc, hok]
    rfl

/-- Witness for C9 on the drifted state: after suspending `demoPMDrift`,
resume restores registered pin 1 (which still resolves) and skips
registered pin 5 (whose community range no longer contains it) without
touching its registers. -/
theorem resume_order_skip_spec_witness :
    (5 < demoPMDrift.npins ∧
     ((intel_pinctrl_suspend demoPMDrift).pads 5).isSome = true ∧
     locateOk demoPMDrift.comms 5 = false ∧
     (ResumeEvent.padSkip 5 ∈
        (intel_pinctrl_resume demoPMDrift (intel_pinctrl_suspend demoPMDrift)).2 ∧
      (intel_pinctrl_resume demoPMDrift
        (intel_pinctrl_suspend demoPMDrift)).1.padcfg0 5 = demoPMDrift.padcfg0 5 ∧
      (intel_pinctrl_resume demoPMDrift
        (intel_pinctrl_suspend demoPMDrift)).1.padcfg1 5 = demoPMDrift.padcfg1 5 ∧
      (intel_pinctrl_resume demoPMDrift
        (intel_pinctrl_suspend demoPMDrift)).1.padcfg2 5 = demoPMDrift.padcfg2 5)) ∧
    (1 < demoPMDrift.npins ∧
     ((intel_pinctrl_suspend demoPMDrift).pads 1).isSome = true ∧
     locateOk demoPMDrift.comms 1 = true ∧
     ResumeEvent.padRestore 1 ∈
       (intel_pinctrl_resume demoPMDrift (intel_pinctrl_suspend demoPMDrift)).2) :=
  ⟨⟨by decide, by decide, by decide,
    (resume_order_skip_spec demoPMDrift (intel_pinctrl_suspend demoPMDrift)).2.2.2.1
      5 (by decide) (by decide) (by decide)⟩,
   ⟨by decide, by decide, by decide,
    (resume_order_skip_spec demoPMDrift (intel_pinctrl_suspend demoPMDrift)).2.2.2.2
      1 (by decide) (by decide) (by decide)⟩⟩

end VoodooGPIO
